import Mathlib

/-!
Verification of the Tailwind/CSS color-configuration rewriter in
`apps/studio/electron/main/assets/styles.ts`.

The TypeScript source edits two documents kept in sync: the
`theme.extend.colors` object literal of a Tailwind configuration file
(parsed by an external JS parser into an object-literal tree) and a
stylesheet holding `--name: value;` custom-property declarations inside a
`:root` rule and a `.dark` rule (parsed by an external CSS toolkit).

Shallow embedding conventions used throughout this file:
the colors object is modelled as a list of identifier-keyed properties
whose values are string-literal leaves or nested object literals (the only
shapes the source inspects); a stylesheet is a list of rules, each a
selector with a list of declarations; filesystem writes become returned
values; a JavaScript `throw` travelling through a `try` block becomes an
`Except String` value; JavaScript falsiness of a string is the `= ""` test
and of an optional parameter the `Option` being `none` or `some ""`.
External library behaviour (the two parsers, `parseHslValue`) enters as
explicit function parameters, so that the control flow of the source is
what is being verified, not the libraries.
-/

namespace OnlookStyles

/-! ## JavaScript string primitives

Each primitive mirrors the exact JS builtin the source calls. They are
written as structural recursions over `List Char` so that all of them
evaluate inside `decide`. -/

/-- Model of JavaScript `String.prototype.split` with a one-character
separator, at the character-list level: `"".split(x)` is `[""]`, and
separators at the ends produce empty fragments, exactly as in JS. -/
def splitOnCharL (sep : Char) : List Char → List (List Char)
  | [] => [[]]
  | c :: cs =>
    if c = sep then [] :: splitOnCharL sep cs
    else
      match splitOnCharL sep cs with
      | [] => [[c]]
      | h :: t => (c :: h) :: t

/-- Model of JavaScript `split` on strings (single-character separator). -/
def jsSplit (s : String) (sep : Char) : List String :=
  (splitOnCharL sep s.data).map (fun l => ⟨l⟩)

/-- Model of JavaScript `String.prototype.startsWith`. -/
def jsStartsWith (s p : String) : Bool :=
  p.data.isPrefixOf s.data

/-- Model of JavaScript `String.prototype.endsWith`. -/
def jsEndsWith (s p : String) : Bool :=
  p.data.isSuffixOf s.data

/-- Whitespace characters stripped by JavaScript `trim` (the ones relevant
to stylesheet lines). -/
def isWSChar (c : Char) : Bool :=
  c = ' ' || c = '\t' || c = '\n' || c = '\r'

/-- Model of JavaScript `String.prototype.trim`. -/
def jsTrim (s : String) : String :=
  ⟨((s.data.dropWhile (fun c => isWSChar c)).reverse.dropWhile (fun c => isWSChar c)).reverse⟩

/-- Model of JavaScript `String.prototype.replace` with a plain-string
pattern: only the first occurrence of the pattern is replaced; if the
pattern does not occur the string is returned unchanged. -/
def replaceFirstL (pat rep : List Char) : List Char → List Char
  | [] => if pat = [] then rep else []
  | c :: cs =>
    if pat.isPrefixOf (c :: cs) then rep ++ (c :: cs).drop pat.length
    else c :: replaceFirstL pat rep cs

/-- String-level wrapper for `replaceFirstL`. -/
def jsReplaceFirst (s pat rep : String) : String :=
  ⟨replaceFirstL pat.data rep.data s.data⟩

/-- Model of JavaScript `String.prototype.replace` with a global regex made
of a literal pattern (`new RegExp(lit, 'g')` on a metacharacter-free
literal): every non-overlapping occurrence, scanned left to right, is
replaced. The fuel argument makes the recursion structural; every step
consumes at least one character, so fuel `s.length` computes the exact
semantics (see `replaceAllAux_fuel`). -/
def replaceAllAux (pat rep : List Char) : Nat → List Char → List Char
  | _, [] => []
  | 0, s => s
  | fuel + 1, c :: cs =>
    if pat ≠ [] ∧ pat.isPrefixOf (c :: cs) then
      rep ++ replaceAllAux pat rep fuel ((c :: cs).drop pat.length)
    else
      c :: replaceAllAux pat rep fuel cs

/-- String-level wrapper for `replaceAllAux` with sufficient fuel. -/
def jsReplaceAll (s pat rep : String) : String :=
  ⟨replaceAllAux pat.data rep.data s.data.length s.data⟩

/-- Separators collapsed by camel-casing. -/
def isSepChar (c : Char) : Bool :=
  c = ' ' || c = '-' || c = '_'

/-- Character pass of `toCamelCase`: drop separators and upper-case the
character following each separator. -/
def camelChars : Bool → List Char → List Char
  | _, [] => []
  | up, c :: cs =>
    if isSepChar c then camelChars true cs
    else (if up then c.toUpper else c) :: camelChars false cs

/-- Modelled from the spec: `toCamelCase` lives in `./helpers`, which is not
among the provided sources. The spec prescribes "identifier-safe casing"
via `camelCase(name)`, so the standard rule is used: separators (space,
hyphen, underscore) are dropped, the letter after each separator is
upper-cased, and the first letter is lower-cased; a name already in
camelCase form is left unchanged. -/
def toCamelCase (s : String) : String :=
  match camelChars false s.data with
  | [] => ""
  | c :: cs => ⟨c.toLower :: cs⟩

/-! ## Data model -/

/-- Result object `{success, error?}` returned to callers by the public
entry points (`UpdateResult` in `@onlook/models/assets`). -/
structure UpdateResult where
  success : Bool
  error : Option String
deriving DecidableEq, Repr

/-- A value inside the `theme.extend.colors` object literal: a string
literal leaf, or a nested object literal with identifier keys — the only
two shapes the rewriter inspects and produces. -/
inductive CNode where
  | leaf (value : String)
  | node (props : List (String × CNode))

/-- The `colors` object literal itself: its identifier-keyed properties in
source order. -/
abbrev Colors := List (String × CNode)

/-- A custom-property declaration `--name: value;` (postcss `Declaration`,
restricted to the `prop`/`value` pair the source reads and writes). -/
structure Decl where
  prop : String
  value : String
deriving DecidableEq, Repr

/-- A stylesheet rule: a selector and its declarations in order. -/
structure Rule where
  selector : String
  decls : List Decl
deriving DecidableEq, Repr

/-- A parsed stylesheet: its rules in order (postcss `Root`, restricted to
the rule list the source walks). -/
structure Css where
  rules : List Rule
deriving DecidableEq, Repr

/-- The theme-scope filter accepted by the update entry point. -/
inductive Theme where
  | dark
  | light
deriving DecidableEq, Repr

/-- A rename to propagate into source files; the source fields are named
`oldClass` and `newClass` (`ClassReplacement` in `@onlook/models/assets`),
spelled `oldClassName`/`newClassName` here. -/
structure ClassReplacement where
  oldClassName : String
  newClassName : String
deriving DecidableEq, Repr

/-! ## Creation (`createTailwindColorVariable` and its helpers) -/

/-- Modelled from the spec: `addTailwindRootColor` lives in `./helpers`,
which is not among the provided sources. The spec says creation with no
parent group "inserts a new top-level key under the colors object whose
value is the string `var(--<property-name>)`". -/
def addTailwindRootColor (colorObj : Colors) (camelName newCssVarName : String) : Colors :=
  colorObj ++ [(camelName, CNode.leaf ("var(--" ++ newCssVarName ++ ")"))]

/-- Source `addTailwindNestedColor` (styles.ts:58): find the first property
whose key is `parentName`; when its value is an object literal, push a new
property keyed `toCamelCase newName` with value `var(--newCssVarName)`;
otherwise silently do nothing. -/
def addTailwindNestedColor (colorObj : Colors) (parentName newName newCssVarName : String) :
    Colors :=
  match colorObj with
  | [] => []
  | (k, v) :: rest =>
    if k = parentName then
      match v with
      | CNode.node children =>
        (k, CNode.node (children ++
          [(toCamelCase newName, CNode.leaf ("var(--" ++ newCssVarName ++ ")"))])) :: rest
      | l => (k, l) :: rest
    else (k, v) :: addTailwindNestedColor rest parentName newName newCssVarName

/-- One postcss `walkRules(sel, rule => rule.append(d))` pass: append the
declaration to every rule with exactly that selector. -/
def appendDeclToMatching (css : Css) (sel : String) (d : Decl) : Css :=
  ⟨css.rules.map (fun r => if r.selector = sel then ⟨r.selector, r.decls ++ [d]⟩ else r)⟩

/-- Source `addTailwindCssVariable` (styles.ts:304): append
`--varName: color` to every `:root` rule, then to every `.dark` rule. -/
def addTailwindCssVariable (css : Css) (varName color : String) : Css :=
  appendDeclToMatching (appendDeclToMatching css ":root" ⟨"--" ++ varName, color⟩)
    ".dark" ⟨"--" ++ varName, color⟩

/-- Outcome of a creation: the returned result object together with the
contents written to the configuration file and the stylesheet. -/
structure CreateOutcome where
  result : UpdateResult
  colors : Colors
  css : Css

/-- The custom-property name rule used by creation (styles.ts:95-97):
`parentName-camelCase(newName)` when a non-empty parent is given, plain
`camelCase(newName)` otherwise. -/
def createCssVarName (newName : String) (parentName : Option String) : String :=
  if parentName.getD "" = "" then toCamelCase newName
  else parentName.getD "" ++ "-" ++ toCamelCase newName

/-- Source `createTailwindColorVariable` (styles.ts:89): writes the new
declaration into both stylesheet scopes and inserts the config entry
(top level when `parentName` is absent or empty, nested otherwise); always
returns `{success: true}`. -/
def createTailwindColorVariable (colors : Colors) (css : Css) (newColor newName : String)
    (parentName : Option String) : CreateOutcome :=
  let camelCaseName := toCamelCase newName
  let newCssVarName := createCssVarName newName parentName
  let css2 := addTailwindCssVariable css newCssVarName newColor
  let colors2 :=
    if parentName.getD "" = "" then addTailwindRootColor colors camelCaseName newCssVarName
    else addTailwindNestedColor colors (parentName.getD "") camelCaseName newCssVarName
  ⟨⟨true, none⟩, colors2, css2⟩

/-! ## Rename / recolor (`updateTailwindColorVariable` and its helpers) -/

/-- Result record of `updateTailwindConfigFile` (`ConfigUpdateResult` in
`@onlook/models/assets`): whether a key or a value was rewritten, and the
re-printed configuration content. -/
structure ConfigUpdateResult where
  keyUpdated : Bool
  valueUpdated : Bool
  output : Colors

/-- Child rewrite of a root-group rename (styles.ts:170-191): for each
string-literal child, globally replace `--<old var name>` by
`--<new var name>` inside its value, where a child keyed `DEFAULT` uses the
bare group names and any other child the hyphenated ones. -/
def rewriteNestedVar (parentKey newName : String) (p : String × CNode) : String × CNode :=
  match p with
  | (k, CNode.leaf v) =>
    let oldVarName := if k = "DEFAULT" then parentKey else parentKey ++ "-" ++ k
    let newVarName :=
      if k = "DEFAULT" then toCamelCase newName else toCamelCase newName ++ "-" ++ k
    (k, CNode.leaf (jsReplaceAll v ("--" ++ oldVarName) ("--" ++ newVarName)))
  | p => p

/-- Per-child step of a child rename (styles.ts:196-215): on the child
keyed `keyName`, rename the key to `toCamelCase newName` when the name
changed, and overwrite a string-literal value with `var(--newCssVarName)`
(`var(--parentKey)` when `keyName` is `DEFAULT`). Returns the updated
child together with its contributions to `keyUpdated` and `valueUpdated`. -/
def updNestedProp (parentKey keyName newName newCssVarName : String) (c : String × CNode) :
    (String × CNode) × Bool × Bool :=
  if c.1 = keyName then
    let keyU : Bool := decide (newName ≠ keyName)
    let k2 := if newName ≠ keyName then toCamelCase newName else c.1
    match c.2 with
    | CNode.leaf _ =>
      let varName := if keyName = "DEFAULT" then parentKey else newCssVarName
      ((k2, CNode.leaf ("var(--" ++ varName ++ ")")), keyU, true)
    | v => ((k2, v), keyU, false)
  else (c, false, false)

/-- Per-property step of `updateTailwindConfigFile` (styles.ts:155-218):
only properties keyed `parentKey` whose value is an object literal are
touched; an empty `keyName` triggers the root-group rename (when the name
actually changed), otherwise every child keyed `keyName` is processed. -/
def updColorsEntry (parentKey keyName newName newCssVarName : String) (p : String × CNode) :
    (String × CNode) × Bool × Bool :=
  match p with
  | (k, CNode.node children) =>
    if k = parentKey then
      if keyName = "" then
        if parentKey ≠ "" ∧ newName ≠ parentKey then
          ((toCamelCase newName, CNode.node (children.map (rewriteNestedVar parentKey newName))),
            true, false)
        else ((k, CNode.node children), false, false)
      else
        let steps := children.map (updNestedProp parentKey keyName newName newCssVarName)
        ((k, CNode.node (steps.map Prod.fst)),
          steps.any (fun s => s.2.1), steps.any (fun s => s.2.2))
    else (p, false, false)
  | p => (p, false, false)

/-- Source `updateTailwindConfigFile` (styles.ts:132): run the traversal
over every property of the colors object, collecting the two flags. -/
def updateTailwindConfigFile (colors : Colors) (parentKey keyName newName newCssVarName : String) :
    ConfigUpdateResult :=
  let steps := colors.map (updColorsEntry parentKey keyName newName newCssVarName)
  ⟨steps.any (fun s => s.2.1), steps.any (fun s => s.2.2), steps.map Prod.fst⟩

/-- The `(newCssVarName, effective originalName)` computation of
`updateTailwindColorVariable` (styles.ts:239-251): an empty `keyName`
renames the root group (`newName` itself when it changed, the original
name when it did not); a `DEFAULT` key redirects both names to
`parentKey`; otherwise a changed child name yields `parentKey-newName` and
an unchanged one reuses `originalName`. -/
def renameVarNames (parentKey keyName newName originalName : String) : String × String :=
  if keyName = "" then
    (if newName ≠ parentKey then newName else originalName, originalName)
  else if keyName = "DEFAULT" then
    (parentKey, parentKey)
  else
    (if newName ≠ keyName then parentKey ++ "-" ++ newName else originalName, originalName)

/-- The `shouldUpdateValue` flag of `updateTailwindCssVariable`
(styles.ts:340-342): a non-empty new color, and either no theme filter or
a filter selecting this rule's scope. -/
def shouldUpdateValueFlag (newColor : String) (theme : Option Theme) (isDark : Bool) : Bool :=
  if newColor = "" then false
  else if theme = none then true
  else if isDark then decide (theme = some Theme.dark) else decide (theme = some Theme.light)

/-- Per-declaration step of `updateTailwindCssVariable` (styles.ts:344-365):
the declaration for `--originalName` is renamed (appending the new
declaration and removing the old) or recolored in place; any declaration
whose name extends `--originalName-` is migrated to the new prefix by a
first-occurrence replace, keeping its value. Returns the possibly kept
declaration and the declarations appended at the end of the rule. -/
def updDecl (originalName newVarName newColor : String) (supd renameFlag : Bool) (d : Decl) :
    Option Decl × List Decl :=
  if d.prop = "--" ++ originalName then
    if renameFlag then
      (none, [⟨"--" ++ newVarName, if supd then newColor else d.value⟩])
    else if supd then (some ⟨d.prop, newColor⟩, [])
    else (some d, [])
  else if renameFlag && jsStartsWith d.prop ("--" ++ originalName ++ "-") then
    (none, [⟨jsReplaceFirst d.prop originalName newVarName, d.value⟩])
  else (some d, [])

/-- Per-rule step of `updateTailwindCssVariable` (styles.ts:338-366): only
`:root` and `.dark` rules are walked; kept declarations stay in place and
appended ones are collected at the end of the rule. -/
def updRule (originalName newVarName newColor : String) (theme : Option Theme) (r : Rule) :
    Rule :=
  if r.selector = ":root" ∨ r.selector = ".dark" then
    let isDark : Bool := decide (r.selector = ".dark")
    let supd := shouldUpdateValueFlag newColor theme isDark
    let renameFlag : Bool := decide (newVarName ≠ "") && decide (newVarName ≠ originalName)
    let steps := r.decls.map (updDecl originalName newVarName newColor supd renameFlag)
    ⟨r.selector, steps.filterMap Prod.fst ++ (steps.map Prod.snd).flatten⟩
  else r

/-- Source `updateTailwindCssVariable` (styles.ts:326). -/
def updateTailwindCssVariable (css : Css) (originalName newVarName newColor : String)
    (theme : Option Theme) : Css :=
  ⟨css.rules.map (updRule originalName newVarName newColor theme)⟩

/-- Outcome of a rename/recolor: the returned result object, the contents
of the two files after the operation's writes, and the class replacements
handed to `updateClassReferences`. -/
structure UpdateOutcome where
  result : UpdateResult
  colors : Colors
  css : Css
  replacements : List ClassReplacement

/-- Source `updateTailwindColorVariable` (styles.ts:227): split the
original name on hyphens (destructuring keeps the first two fragments),
fail fast on an empty parent fragment, compute the effective names, always
write the stylesheet, and write the configuration file only when a key or
value was rewritten, triggering class-reference propagation only when a
key was renamed. -/
def updateTailwindColorVariable (colors : Colors) (css : Css)
    (originalName newColor newName : String) (theme : Option Theme) : UpdateOutcome :=
  let parts := jsSplit originalName '-'
  let parentKey := parts.getD 0 ""
  let keyName := parts.getD 1 ""
  if parentKey = "" then
    ⟨⟨false, some ("Invalid color key format: " ++ originalName)⟩, colors, css, []⟩
  else
    let names := renameVarNames parentKey keyName newName originalName
    let css2 := updateTailwindCssVariable css names.2 names.1 newColor theme
    let u := updateTailwindConfigFile colors parentKey keyName newName names.1
    let colors2 := if u.keyUpdated || u.valueUpdated then u.output else colors
    let reps :=
      if (u.keyUpdated || u.valueUpdated) && u.keyUpdated then
        [⟨parentKey ++ "-" ++ keyName, parentKey ++ "-" ++ newName⟩]
      else []
    ⟨⟨true, none⟩, colors2, css2, reps⟩

/-! ## Class-reference propagation (token rewrite of `updateClassReferences`) -/

/-- The match test of the token loop (styles.ts:511-514): the token equals
the old class name or ends with `-<old class name>`. -/
def tokenMatches (r : ClassReplacement) (currentClass : String) : Bool :=
  decide (currentClass = r.oldClassName) || jsEndsWith currentClass ("-" ++ r.oldClassName)

/-- Per-token rewrite of `updateClassReferences` (styles.ts:507-520): the
first replacement whose test matches rewrites the token via JS `replace`
(first occurrence of the old class name); otherwise the token is kept. -/
def rewriteToken (replacements : List ClassReplacement) (currentClass : String) : String :=
  match replacements.find? (fun r => tokenMatches r currentClass) with
  | some r => jsReplaceFirst currentClass r.oldClassName r.newClassName
  | none => currentClass

/-- The class list of one element after the token loop. -/
def rewriteClasses (replacements : List ClassReplacement) (classes : List String) : List String :=
  classes.map (rewriteToken replacements)

/-! ## Deletion (`deleteColorGroup`) -/

/-- JS `findIndex` + `splice(i, 1)` on a keyed property list: remove the
first property with the given key, keeping everything else. -/
def eraseFirstKey : List (String × CNode) → String → List (String × CNode)
  | [], _ => []
  | (k, v) :: rest, c => if k = c then rest else (k, v) :: eraseFirstKey rest c

/-- Config side of `deleteColorGroup` (styles.ts:559-604): find the first
property keyed `camelName`; when it is an object literal, either remove
the whole group, or remove the child keyed `colorName` and drop the group
when that leaves it empty. -/
def deleteColorGroupConfig : Colors → String → Option String → Colors
  | [], _, _ => []
  | (k, v) :: rest, camelName, colorName =>
    if k = camelName then
      match v with
      | CNode.node children =>
        match colorName with
        | some c =>
          if children.any (fun p => decide (p.1 = c)) then
            let children2 := eraseFirstKey children c
            if children2.isEmpty then rest else (k, CNode.node children2) :: rest
          else (k, CNode.node children) :: rest
        | none => rest
      | l => (k, l) :: rest
    else (k, v) :: deleteColorGroupConfig rest camelName colorName

/-- JS `content.split('\n')`. -/
def splitLines (s : String) : List String :=
  (splitOnCharL '\n' s.data).map (fun l => ⟨l⟩)

/-- JS `lines.join('\n')`. -/
def joinLines : List String → String
  | [] => ""
  | [l] => l
  | l :: rest => l ++ "\n" ++ joinLines rest

/-- The keep predicate of the stylesheet line filter (styles.ts:608-624):
drop every line whose trimmed text starts with `--<group>-<color>` when a
color name is given, and with `--<group>` otherwise. -/
def deleteCssKeep (camelName : String) (colorName : Option String) (line : String) : Bool :=
  match colorName with
  | some c => !(jsStartsWith (jsTrim line) ("--" ++ camelName ++ "-" ++ c))
  | none => !(jsStartsWith (jsTrim line) ("--" ++ camelName))

/-- Outcome of a deletion: the returned result object and the contents
written to the two files. -/
structure DeleteOutcome where
  result : UpdateResult
  colors : Colors
  cssContent : String

/-- Source `deleteColorGroup` (styles.ts:546): camel-case the group name,
apply the config-tree removal, filter the stylesheet as raw lines, write
both files and return `{success: true}`. -/
def deleteColorGroup (colors : Colors) (cssContent : String) (groupName : String)
    (colorName : Option String) : DeleteOutcome :=
  let camelName := toCamelCase groupName
  let colors2 := deleteColorGroupConfig colors camelName colorName
  let css2 := joinLines ((splitLines cssContent).filter (deleteCssKeep camelName colorName))
  ⟨⟨true, none⟩, colors2, css2⟩

/-! ## Extraction (`extractTailwindCssVariables`,
`extractColorsFromTailwindConfig`) -/

/-- A flat mapping from custom-property name to value. -/
abbrev VarMap := List (String × String)

/-- The two per-scope mappings returned by the stylesheet extractor. -/
structure CssVars where
  root : VarMap
  dark : VarMap
deriving DecidableEq, Repr

/-- JS object property write `m[k] = v`: overwrite in place when the key
exists, append otherwise. -/
def recordSet (m : VarMap) (k v : String) : VarMap :=
  if m.any (fun p => decide (p.1 = k)) then m.map (fun p => if p.1 = k then (k, v) else p)
  else m ++ [(k, v)]

/-- The per-declaration value canonicalization (styles.ts:390-398): the
external `parseHslValue` either throws (caught, raw value kept), returns
no color (raw value kept) or returns a color whose hex form is stored.
The external function is a parameter. -/
def canonValue (hsl : String → Except String (Option String)) (v : String) : String :=
  match hsl v with
  | Except.ok (some hex) => hex
  | Except.ok none => v
  | Except.error _ => v

/-- One collection pass of the
stylesheet extractor (`walkRules` on the selector, `walkDecls` on
properties starting with two dashes): custom-property declarations of
every rule with the given selector, keyed by the property name without
its two-dash prefix. -/
def collectVars (hsl : String → Except String (Option String)) (sel : String) (css : Css) :
    VarMap :=
  css.rules.foldl
    (fun m r =>
      if r.selector = sel then
        r.decls.foldl
          (fun m d =>
            if jsStartsWith d.prop "--" then
              recordSet m ⟨d.prop.data.drop 2⟩ (canonValue hsl d.value)
            else m)
          m
      else m)
    []

/-- Source `extractTailwindCssVariables` (styles.ts:373): the stylesheet is
parsed (`postcss.parse`, a parameterized external call whose outcome is an
`Except`) with NO try/catch around it, so a parse failure propagates to
the caller; on success the `:root` and `.dark` scopes are collected. -/
def extractTailwindCssVariables (hsl : String → Except String (Option String))
    (parsed : Except String Css) : Except String CssVars :=
  match parsed with
  | Except.error e => Except.error e
  | Except.ok css => Except.ok ⟨collectVars hsl ":root" css, collectVars hsl ".dark" css⟩

/-- Modelled from the spec: `extractObject` lives in `./helpers`, which is
not among the provided sources; the spec says it "materializes" the
located colors object "into a plain nested mapping", which on this model
of the colors object is the identity. -/
def extractObject (colors : Colors) : Colors := colors

/-- Source `extractColorsFromTailwindConfig` (styles.ts:426): the whole
body sits in a try/catch returning `{}` on error; the parse outcome and
the located `theme.extend.colors` object (or its absence) are the
parameter. -/
def extractColorsFromTailwindConfig (parsed : Except String (Option Colors)) : Colors :=
  match parsed with
  | Except.error _ => []
  | Except.ok none => []
  | Except.ok (some colors) => extractObject colors

/-! ## Public entry points

The update and delete entry points wrap their bodies in try/catch, but
only `initializeTailwindColorContent` is awaited inside the try: the
dispatched mutator's promise is RETURNED WITHOUT `await`
(styles.ts:46-48 and styles.ts:645). By JavaScript async semantics the
try block completes at that `return`, and the entry point's promise
adopts the inner one afterwards, so a rejection of the dispatched
operation bypasses the catch and rejects across the public boundary.
Each entry point is therefore modelled as a function into
`Except String UpdateResult` — its outcome at the public boundary — with
the awaited initialization outcome and the dispatched operation's promise
as parameters (in the source the dispatched operations can reject through
the external parser or the filesystem). -/

/-- Source `updateTailwindColorConfig` (styles.ts:32-56), at its public
boundary. An error thrown by the awaited `initializeTailwindColorContent`
IS caught and normalized to `{success: false, error: <message>}` (a normal
return, hence `Except.ok`), and a null initialization returns the
prepared-failure result; the dispatched mutator's promise
(`updateOp` when `originalName` is non-empty, `createOp` otherwise) is
returned without await, so the public outcome adopts it verbatim, its
rejection included. -/
def updateTailwindColorConfig (init : Except String (Option (Colors × Css)))
    (originalName : String)
    (updateOp createOp : Colors → Css → Except String UpdateResult) :
    Except String UpdateResult :=
  match init with
  | Except.error e => Except.ok ⟨false, some e⟩
  | Except.ok none => Except.ok ⟨false, some "Failed to prepare color update"⟩
  | Except.ok (some (colors, css)) =>
    if originalName ≠ "" then updateOp colors css else createOp colors css

/-- Source `deleteTailwindColorGroup` (styles.ts:634-652), at its public
boundary: the same catch for the awaited initialization, while
`deleteColorGroup`'s promise (`deleteOp`, over the loaded colors object
and raw stylesheet text) is returned without await at styles.ts:645, so
its rejection escapes the catch. -/
def deleteTailwindColorGroup (init : Except String (Option (Colors × String)))
    (deleteOp : Colors → String → Except String UpdateResult) :
    Except String UpdateResult :=
  match init with
  | Except.error e => Except.ok ⟨false, some e⟩
  | Except.ok none => Except.ok ⟨false, some "Failed to prepare color update"⟩
  | Except.ok (some (colors, cssContent)) => deleteOp colors cssContent

/-- The dispatch inside `updateTailwindColorConfig`'s try block
(styles.ts:46-48): an empty original name routes to creation, a non-empty
one to rename/recolor, together with the file contents each writes. -/
def updateDispatch (colors : Colors) (css : Css) (originalName newColor newName : String)
    (theme : Option Theme) (parentName : Option String) : UpdateResult × Colors × Css :=
  if originalName ≠ "" then
    let o := updateTailwindColorVariable colors css originalName newColor newName theme
    (o.result, o.colors, o.css)
  else
    let o := createTailwindColorVariable colors css newColor newName parentName
    (o.result, o.colors, o.css)

/-- What the scan entry point hands back when it succeeds. -/
structure ScanResult where
  configContent : Colors
  cssContent : CssVars

/-- Source `scanTailwindConfig` (styles.ts:654-689): the body of its try
block. Paths may be missing (null), each read may fail (null) or produce
an empty (falsy) string; an unreadable config aborts with null, an
unreadable stylesheet falls back to extracting from the empty string; a
stylesheet-extractor error is caught by the entry point's own catch,
which returns null. The parsers and `parseHslValue` are parameters. -/
def scanTryBlock (parseCfg : String → Except String (Option Colors))
    (parseCss : String → Except String Css)
    (hsl : String → Except String (Option String))
    (configPath cssPath : Option String)
    (readConfig readCss : Option String) : Option ScanResult :=
  match configPath, cssPath with
  | some _, some _ =>
    match readConfig with
    | none => none
    | some c =>
      if c = "" then none
      else
        let cfg := extractColorsFromTailwindConfig (parseCfg c)
        let cssText :=
          match readCss with
          | none => none
          | some s => if s = "" then none else some s
        match cssText with
        | none =>
          match extractTailwindCssVariables hsl (parseCss "") with
          | Except.ok vars => some ⟨cfg, vars⟩
          | Except.error _ => none
        | some s =>
          match extractTailwindCssVariables hsl (parseCss s) with
          | Except.ok vars => some ⟨cfg, vars⟩
          | Except.error _ => none
  | _, _ => none

/-- Source `scanTailwindConfig`'s catch clause (styles.ts:685-688): any
thrown error yields null. -/
def scanTailwindConfig (tryBlock : Except String (Option ScanResult)) : Option ScanResult :=
  match tryBlock with
  | Except.ok r => r
  | Except.error _ => none

/-! ## Observation helpers used by the theorems -/

/-- The properties of an object-literal node (empty for a leaf). -/
def childrenOf : CNode → List (String × CNode)
  | CNode.node ps => ps
  | _ => []

/-- The string value of a leaf (none for an object literal). -/
def leafValueOf : CNode → Option String
  | CNode.leaf v => some v
  | _ => none

/-- A value of the shape `var(--<name>)`: it starts with `var(--`, ends
with `)` and is long enough to contain both. -/
def isVarRefB (s : String) : Bool :=
  jsStartsWith s "var(--" && jsEndsWith s ")" && decide (7 ≤ s.data.length)

/-- Every string-literal leaf below the given properties satisfies
`isVarRefB`, i.e. is a custom-property reference rather than a literal. -/
def leavesOKList : List (String × CNode) → Bool
  | [] => true
  | (_, CNode.leaf v) :: rest => isVarRefB v && leavesOKList rest
  | (_, CNode.node ps) :: rest => leavesOKList ps && leavesOKList rest

/-- Every key below the given properties is free of the `)` character —
true of any colors object produced by parsing, since the source only
matches keys that are identifiers. -/
def keysCleanList : List (String × CNode) → Bool
  | [] => true
  | (k, CNode.leaf _) :: rest =>
    k.data.all (fun c => decide (c ≠ ')')) && keysCleanList rest
  | (k, CNode.node ps) :: rest =>
    k.data.all (fun c => decide (c ≠ ')')) && keysCleanList ps && keysCleanList rest

/-! ## Shared lemmas -/

/-- With no recolor and an unchanged property name, a declaration passes
through the css update untouched. -/
theorem updDecl_noop (o : String) (d : Decl) :
    updDecl o o "" false false d = (some d, []) := by
  simp [updDecl]

/-- With no recolor and an unchanged property name, a rule's declaration
list passes through the css update untouched. -/
theorem updSteps_noop (o : String) (ds : List Decl) :
    List.filterMap (Prod.fst ∘ updDecl o o "" false false) ds
      ++ (List.map (Prod.snd ∘ updDecl o o "" false false) ds).flatten = ds := by
  induction ds with
  | nil => rfl
  | cons d ds ih =>
    simp only [List.filterMap_cons, List.map_cons, List.flatten_cons, Function.comp_apply,
      updDecl_noop]
    simpa using ih

/-- With no recolor and an unchanged property name, a rule passes through
the css update untouched. -/
theorem updRule_noop (o : String) (θ : Option Theme) (r : Rule) :
    updRule o o "" θ r = r := by
  cases r with
  | mk sel ds =>
    simp only [updRule]
    split
    · simp [shouldUpdateValueFlag, updSteps_noop]
    · rfl

/-- Calling the css update with the original name as the new name and no
new color leaves the stylesheet unchanged, whatever the theme filter. -/
theorem updateCss_noop (css : Css) (o : String) (θ : Option Theme) :
    updateTailwindCssVariable css o o "" θ = css := by
  cases css with
  | mk rules =>
    have h : rules.map (updRule o o "" θ) = rules := by
      induction rules with
      | nil => rfl
      | cons r rs ih => simp [updRule_noop, ih]
    simpa [updateTailwindCssVariable] using h

/-- The two sequential `walkRules` passes of `addTailwindCssVariable`
amount to one pass appending the declaration to every `:root` and every
`.dark` rule. -/
theorem addCss_both_scopes (css : Css) (name color : String) :
    addTailwindCssVariable css name color
      = ⟨css.rules.map (fun r =>
          if r.selector = ":root" ∨ r.selector = ".dark"
          then ⟨r.selector, r.decls ++ [⟨"--" ++ name, color⟩]⟩ else r)⟩ := by
  unfold addTailwindCssVariable appendDeclToMatching
  simp only [List.map_map]
  refine congrArg Css.mk (List.map_congr_left fun r _ => ?_)
  by_cases h1 : r.selector = ":root"
  · simp [Function.comp, h1]
  · by_cases h2 : r.selector = ".dark"
    · simp [Function.comp, h1, h2]
    · simp [Function.comp, h1, h2]

/-! ## Claims -/

/-- Claim C1 counterexample: the dispatched mutator's promise is returned
without await (styles.ts:46-48 and styles.ts:645), so its rejection —
e.g. a babel `SyntaxError` thrown while parsing a malformed configuration
inside the mutator — escapes the catch: with the files located, the
public outcome of the update and delete entry points is the error itself,
not the `{success: false, error: <message>}` normalization the claim
states. -/
theorem c1_counterexample :
    updateTailwindColorConfig (Except.ok (some ([], ⟨[]⟩))) "brand"
        (fun _ _ => Except.error "SyntaxError: Unexpected token")
        (fun _ _ => Except.ok ⟨true, none⟩)
      = Except.error "SyntaxError: Unexpected token"
  ∧ updateTailwindColorConfig (Except.ok (some ([], ⟨[]⟩))) "brand"
        (fun _ _ => Except.error "SyntaxError: Unexpected token")
        (fun _ _ => Except.ok ⟨true, none⟩)
      ≠ Except.ok ⟨false, some "SyntaxError: Unexpected token"⟩
  ∧ deleteTailwindColorGroup (Except.ok (some ([], "")))
        (fun _ _ => Except.error "SyntaxError: Unexpected token")
      = Except.error "SyntaxError: Unexpected token"
  ∧ deleteTailwindColorGroup (Except.ok (some ([], "")))
        (fun _ _ => Except.error "SyntaxError: Unexpected token")
      ≠ Except.ok ⟨false, some "SyntaxError: Unexpected token"⟩ :=
  ⟨rfl, fun h => Except.noConfusion h, rfl, fun h => Except.noConfusion h⟩

/-- Claim C1 (amended): at the update and delete entry points an error
thrown by the awaited initialization is caught and normalized to
`{success: false, error: <message>}`, and a null initialization yields
the prepared-failure result; but the dispatched operation's promise is
returned without await, so the public outcome adopts it verbatim and its
rejection escapes the catch. When the dispatched operation completes
normally, the outcome is exactly the corresponding mutator's result. The
scan entry point alone catches every error, returning null. -/
theorem c1_entry_error_paths (colors : Colors) (css : Css) (cssContent : String)
    (originalName newColor newName g : String) (θ : Option Theme)
    (p c? : Option String)
    (updateOp createOp : Colors → Css → Except String UpdateResult)
    (deleteOp : Colors → String → Except String UpdateResult) :
    (∀ e, updateTailwindColorConfig (Except.error e) originalName updateOp createOp
      = Except.ok ⟨false, some e⟩)
  ∧ (updateTailwindColorConfig (Except.ok none) originalName updateOp createOp
      = Except.ok ⟨false, some "Failed to prepare color update"⟩)
  ∧ (updateTailwindColorConfig (Except.ok (some (colors, css))) originalName updateOp createOp
      = if originalName ≠ "" then updateOp colors css else createOp colors css)
  ∧ (∀ e, deleteTailwindColorGroup (Except.error e) deleteOp = Except.ok ⟨false, some e⟩)
  ∧ (deleteTailwindColorGroup (Except.ok none) deleteOp
      = Except.ok ⟨false, some "Failed to prepare color update"⟩)
  ∧ (deleteTailwindColorGroup (Except.ok (some (colors, cssContent))) deleteOp
      = deleteOp colors cssContent)
  ∧ (updateTailwindColorConfig (Except.ok (some (colors, css))) originalName
        (fun c s =>
          Except.ok (updateTailwindColorVariable c s originalName newColor newName θ).result)
        (fun c s => Except.ok (createTailwindColorVariable c s newColor newName p).result)
      = Except.ok (updateDispatch colors css originalName newColor newName θ p).1)
  ∧ (deleteTailwindColorGroup (Except.ok (some (colors, cssContent)))
        (fun c s => Except.ok (deleteColorGroup c s g c?).result)
      = Except.ok (deleteColorGroup colors cssContent g c?).result)
  ∧ (∀ e, scanTailwindConfig (Except.error e) = none)
  ∧ (∀ s, scanTailwindConfig (Except.ok s) = s) := by
  refine ⟨fun _ => rfl, rfl, rfl, fun _ => rfl, rfl, rfl, ?_, rfl, fun _ => rfl, fun _ => rfl⟩
  by_cases h : originalName ≠ "" <;> simp [updateTailwindColorConfig, updateDispatch, h]

/-- Claim C3 counterexample: renaming the root group `brand` to
`new color` uses the raw new name as the custom-property name — the
stylesheet property becomes `--new color`, not
`--camelCase("new color") = --newColor` as the claim states. -/
theorem c3_counterexample :
    (renameVarNames "brand" "" "new color" "brand").1 = "new color"
  ∧ toCamelCase "new color" = "newColor"
  ∧ (renameVarNames "brand" "" "new color" "brand").1 ≠ toCamelCase "new color"
  ∧ (updateTailwindColorVariable [("brand", CNode.node [])]
       ⟨[⟨":root", [⟨"--brand", "#000"⟩]⟩]⟩ "brand" "" "new color" none).css
      = ⟨[⟨":root", [⟨"--new color", "#000"⟩]⟩]⟩ :=
  ⟨rfl, rfl, by decide, rfl⟩

/-- Claim C3 (amended): a changed name yields the raw `newName` (root) or
`parentKey-newName` (child) with no camel-casing applied — this coincides
with the creation rule exactly when `toCamelCase newName = newName` — and
an unchanged name reuses the original property name exactly. -/
theorem c3_rename_naming_rule (pk kn nn orig : String) :
    (kn = "" → nn ≠ pk → (renameVarNames pk kn nn orig).1 = nn)
  ∧ (kn = "" → nn = pk → (renameVarNames pk kn nn orig).1 = orig)
  ∧ (kn ≠ "" → kn ≠ "DEFAULT" → nn ≠ kn →
      (renameVarNames pk kn nn orig).1 = pk ++ "-" ++ nn)
  ∧ (kn ≠ "" → kn ≠ "DEFAULT" → nn = kn → (renameVarNames pk kn nn orig).1 = orig)
  ∧ (toCamelCase nn = nn → kn = "" → nn ≠ pk →
      (renameVarNames pk kn nn orig).1 = createCssVarName nn none)
  ∧ (pk ≠ "" → toCamelCase nn = nn → kn ≠ "" → kn ≠ "DEFAULT" → nn ≠ kn →
      (renameVarNames pk kn nn orig).1 = createCssVarName nn (some pk)) := by
  refine ⟨?_, ?_, ?_, ?_, ?_, ?_⟩ <;> intros <;>
    simp_all [renameVarNames, createCssVarName]

/-- Witness for `c3_rename_naming_rule` at concrete inputs. -/
theorem c3_rename_naming_rule_witness :
    (renameVarNames "brand" "accent" "accent2" "brand-accent").1 = "brand-accent2"
  ∧ (renameVarNames "brand" "accent" "accent2" "brand-accent").1
      = createCssVarName "accent2" (some "brand")
  ∧ (renameVarNames "brand" "accent" "accent" "brand-accent").1 = "brand-accent" := by
  refine ⟨?_, ?_, ?_⟩
  · exact (c3_rename_naming_rule "brand" "accent" "accent2" "brand-accent").2.2.1
      (by decide) (by decide) (by decide)
  · exact (c3_rename_naming_rule "brand" "accent" "accent2" "brand-accent").2.2.2.2.2
      (by decide) (by decide) (by decide) (by decide) (by decide)
  · exact (c3_rename_naming_rule "brand" "accent" "accent" "brand-accent").2.2.2.1
      (by decide) (by decide) rfl

/-- Claim C4 counterexample: renaming `brand-DEFAULT` to `primary` leaves
the stylesheet property named `--brand` (the declaration is not renamed at
all), while renaming `brand` itself to `primary` renames the property to
`--primary` — so the renamed property does NOT reflect the new name the
way a rename of the group would. -/
theorem c4_counterexample :
    (updateTailwindColorVariable
        [("brand", CNode.node [("DEFAULT", CNode.leaf "var(--brand)")])]
        ⟨[⟨":root", [⟨"--brand", "#000"⟩]⟩]⟩ "brand-DEFAULT" "" "primary" none).css
      = ⟨[⟨":root", [⟨"--brand", "#000"⟩]⟩]⟩
  ∧ (updateTailwindColorVariable
        [("brand", CNode.node [("x", CNode.leaf "var(--brand-x)")])]
        ⟨[⟨":root", [⟨"--brand", "#000"⟩]⟩]⟩ "brand" "" "primary" none).css
      = ⟨[⟨":root", [⟨"--primary", "#000"⟩]⟩]⟩
  ∧ (⟨[⟨":root", [⟨"--brand", "#000"⟩]⟩]⟩ : Css)
      ≠ ⟨[⟨":root", [⟨"--primary", "#000"⟩]⟩]⟩ :=
  ⟨rfl, rfl, by decide⟩

/-- Claim C4 (amended): renaming the DEFAULT variant of a group targets
the custom property `--g` (never `--g-DEFAULT`): both the effective
original name and the new property name are redirected to the bare group
name, so with no recolor the stylesheet is untouched (the property name
stays `--g` whatever the new name); in the configuration the DEFAULT
child key is renamed to `camelCase(newName)` and its reference set to
`var(--g)`. -/
theorem c4_default_rename (pk nn orig v : String) (css : Css) (θ : Option Theme) :
    renameVarNames pk "DEFAULT" nn orig = (pk, pk)
  ∧ updateTailwindCssVariable css pk pk "" θ = css
  ∧ (nn ≠ "DEFAULT" →
      updateTailwindConfigFile [(pk, CNode.node [("DEFAULT", CNode.leaf v)])]
          pk "DEFAULT" nn pk
        = ⟨true, true,
            [(pk, CNode.node [(toCamelCase nn, CNode.leaf ("var(--" ++ pk ++ ")"))])]⟩) := by
  refine ⟨by simp [renameVarNames], updateCss_noop css pk θ, fun h => ?_⟩
  simp [updateTailwindConfigFile, updColorsEntry, updNestedProp, h]

/-- Witness for `c4_default_rename` at concrete inputs. -/
theorem c4_default_rename_witness :
    renameVarNames "brand" "DEFAULT" "primary" "brand-DEFAULT" = ("brand", "brand")
  ∧ updateTailwindCssVariable ⟨[⟨":root", [⟨"--brand", "#000"⟩]⟩]⟩ "brand" "brand" "" none
      = ⟨[⟨":root", [⟨"--brand", "#000"⟩]⟩]⟩
  ∧ updateTailwindConfigFile [("brand", CNode.node [("DEFAULT", CNode.leaf "var(--brand)")])]
        "brand" "DEFAULT" "primary" "brand"
      = ⟨true, true,
          [("brand", CNode.node [("primary", CNode.leaf "var(--brand)")])]⟩ := by
  obtain ⟨h1, h2, h3⟩ :=
    c4_default_rename "brand" "primary" "brand-DEFAULT" "var(--brand)"
      ⟨[⟨":root", [⟨"--brand", "#000"⟩]⟩]⟩ none
  exact ⟨h1, h2, h3 (by decide)⟩

/-- Claim C6: creating a root color named `n` with value `v` and no parent
appends the config entry `colors.camelCase(n) = var(--camelCase(n))` and
appends the identical declaration `--camelCase(n): v` to every `:root`
rule and every `.dark` rule; the theme argument of the entry point never
reaches the creation path. -/
theorem c6_create_root (colors : Colors) (css : Css) (v n : String) :
    createTailwindColorVariable colors css v n none
      = ⟨⟨true, none⟩,
         colors ++ [(toCamelCase n, CNode.leaf ("var(--" ++ toCamelCase n ++ ")"))],
         ⟨css.rules.map (fun r =>
           if r.selector = ":root" ∨ r.selector = ".dark"
           then ⟨r.selector, r.decls ++ [⟨"--" ++ toCamelCase n, v⟩]⟩ else r)⟩⟩
  ∧ (∀ θ1 θ2 p, updateDispatch colors css "" v n θ1 p = updateDispatch colors css "" v n θ2 p) := by
  constructor
  · show CreateOutcome.mk _ _ _ = _
    rw [show createCssVarName n none = toCamelCase n from rfl]
    simp only [addCss_both_scopes]
    rfl
  · intro θ1 θ2 p
    rfl

/-- Claim C7 counterexample: the stylesheet extractor has no try/catch
around the parse — a parse failure propagates to the caller instead of
degrading to an empty mapping. -/
theorem c7_counterexample :
    extractTailwindCssVariables (fun _ => Except.ok none) (Except.error "unclosed block")
      = Except.error "unclosed block"
  ∧ extractTailwindCssVariables (fun _ => Except.ok none) (Except.error "unclosed block")
      ≠ Except.ok ⟨[], []⟩ :=
  ⟨rfl, fun h => Except.noConfusion h⟩

/-- Claim C7 (amended): the config-colors extractor catches a parse
failure and yields the empty mapping, but the stylesheet extractor
propagates its parse failure to the caller (only the per-declaration HSL
conversion is caught inside it). -/
theorem c7_extractor_error_behaviour :
    (∀ e, extractColorsFromTailwindConfig (Except.error e) = [])
  ∧ (∀ hsl e, extractTailwindCssVariables hsl (Except.error e) = Except.error e) :=
  ⟨fun _ => rfl, fun _ _ => rfl⟩

/-- Claim C10: when both paths are located and the config is readable but
the stylesheet read yields null, the scan try block does not abort: it
returns the extracted config mapping together with the stylesheet
extraction of the empty string, which is the pair of empty root/dark
mappings. -/
theorem c10_scan_css_unreadable (parseCfg : String → Except String (Option Colors))
    (parseCss : String → Except String Css)
    (hsl : String → Except String (Option String))
    (cp sp c : String) (hc : c ≠ "") (hparse : parseCss "" = Except.ok ⟨[]⟩) :
    scanTryBlock parseCfg parseCss hsl (some cp) (some sp) (some c) none
      = some ⟨extractColorsFromTailwindConfig (parseCfg c), ⟨[], []⟩⟩ := by
  simp only [scanTryBlock]
  rw [if_neg hc, hparse]
  rfl

/-- Witness for `c10_scan_css_unreadable` at concrete inputs. -/
theorem c10_scan_css_unreadable_witness :
    scanTryBlock (fun _ => Except.ok none) (fun _ => Except.ok ⟨[]⟩)
      (fun _ => Except.ok none) (some "tailwind.config.ts") (some "app/globals.css")
      (some "module.exports = \x7b\x7d") none
      = some ⟨[], ⟨[], []⟩⟩ :=
  c10_scan_css_unreadable (fun _ => Except.ok none) (fun _ => Except.ok ⟨[]⟩)
    (fun _ => Except.ok none) "tailwind.config.ts" "app/globals.css"
    "module.exports = \x7b\x7d" (by decide) rfl

/-- A no-name root rename (`newName = parentKey`) leaves every colors
property untouched and sets no flag. -/
theorem updColorsEntry_root_noop (pk nv : String) (p : String × CNode) :
    updColorsEntry pk "" pk nv p = (p, false, false) := by
  cases p with
  | mk k v => cases v <;> simp [updColorsEntry]

/-- A no-name root rename leaves the whole configuration update inert. -/
theorem updateConfig_root_noop (colors : Colors) (pk nv : String) :
    updateTailwindConfigFile colors pk "" pk nv = ⟨false, false, colors⟩ := by
  induction colors with
  | nil => rfl
  | cons p ps ih =>
    simp only [updateTailwindConfigFile, List.map_cons, List.any_cons,
      updColorsEntry_root_noop, ConfigUpdateResult.mk.injEq] at ih ⊢
    simp_all

/-- A child rename with an unchanged name leaves the child untouched and
does not set the key flag; a matched string-literal child must already
hold the reference the source is about to write. -/
theorem updNestedProp_noop (pk kn nv : String) (c : String × CNode)
    (hc : c.1 = kn →
      (leafValueOf c.2).getD ("var(--" ++ (if kn = "DEFAULT" then pk else nv) ++ ")")
        = "var(--" ++ (if kn = "DEFAULT" then pk else nv) ++ ")") :
    (updNestedProp pk kn kn nv c).1 = c ∧ (updNestedProp pk kn kn nv c).2.1 = false := by
  cases c with
  | mk ck cv =>
    by_cases h : ck = kn
    · subst h
      cases cv with
      | leaf lv =>
        have hlv := hc rfl
        simp only [leafValueOf, Option.getD_some] at hlv
        simp [updNestedProp, hlv]
      | node ps => simp [updNestedProp]
    · simp [updNestedProp, h]

/-- Mapping `updNestedProp` with an unchanged name over children that
already hold the expected references is the identity and sets no key
flag. -/
theorem updNested_map_noop (pk kn nv : String) (ch : List (String × CNode))
    (h : ∀ q ∈ ch, q.1 = kn →
      (leafValueOf q.2).getD ("var(--" ++ (if kn = "DEFAULT" then pk else nv) ++ ")")
        = "var(--" ++ (if kn = "DEFAULT" then pk else nv) ++ ")") :
    (ch.map (updNestedProp pk kn kn nv)).map Prod.fst = ch
  ∧ (ch.map (updNestedProp pk kn kn nv)).any (fun s => s.2.1) = false := by
  induction ch with
  | nil => exact ⟨rfl, rfl⟩
  | cons c cs ih =>
    obtain ⟨h1, h2⟩ := updNestedProp_noop pk kn nv c (h c (List.mem_cons_self c cs))
    obtain ⟨ih1, ih2⟩ := ih (fun q hq => h q (List.mem_cons_of_mem c hq))
    simp [h1, h2, ih1, ih2]

/-- A child rename with an unchanged name renames no key and reproduces
the configuration tree, provided every matched string-literal child
already holds the expected reference. -/
theorem updateConfig_child_noop (colors : Colors) (pk kn nv : String) (hkn : kn ≠ "")
    (hexp : ∀ p ∈ colors, p.1 = pk → ∀ q ∈ childrenOf p.2, q.1 = kn →
      (leafValueOf q.2).getD ("var(--" ++ (if kn = "DEFAULT" then pk else nv) ++ ")")
        = "var(--" ++ (if kn = "DEFAULT" then pk else nv) ++ ")") :
    (updateTailwindConfigFile colors pk kn kn nv).keyUpdated = false
  ∧ (updateTailwindConfigFile colors pk kn kn nv).output = colors := by
  induction colors with
  | nil => exact ⟨rfl, rfl⟩
  | cons p ps ih =>
    obtain ⟨ih1, ih2⟩ := ih (fun q hq => hexp q (List.mem_cons_of_mem p hq))
    have hstep : (updColorsEntry pk kn kn nv p).1 = p
        ∧ (updColorsEntry pk kn kn nv p).2.1 = false := by
      cases p with
      | mk k v =>
        cases v with
        | leaf s => exact ⟨rfl, rfl⟩
        | node ch =>
          by_cases hk : k = pk
          · obtain ⟨m1, m2⟩ := updNested_map_noop pk kn nv ch
              (fun q hq => hexp (k, CNode.node ch) (List.mem_cons_self _ _)
                (by simpa using hk) q (by simpa [childrenOf] using hq))
            simp [updColorsEntry, hk, hkn, m1, m2]
          · simp [updColorsEntry, hk]
    simp only [updateTailwindConfigFile, List.map_cons, List.any_cons] at ih1 ih2 ⊢
    refine ⟨?_, ?_⟩
    · simp [hstep.2, ih1]
    · simp [hstep.1, ih2]

/-- Claim C2 counterexample: a no-op child rename (`brand-accent` renamed
to `accent`, no recolor) still reports a value update and rewrites the
configuration file — a leaf holding the literal `#fff` is forcibly
rewritten to `var(--brand-accent)`, so the configuration is not
byte-identical to its pre-call state, even though the operation reports
success. -/
theorem c2_counterexample :
    (updateTailwindColorVariable [("brand", CNode.node [("accent", CNode.leaf "#fff")])]
      ⟨[]⟩ "brand-accent" "" "accent" none).result = ⟨true, none⟩
  ∧ (updateTailwindColorVariable [("brand", CNode.node [("accent", CNode.leaf "#fff")])]
      ⟨[]⟩ "brand-accent" "" "accent" none).colors
      = [("brand", CNode.node [("accent", CNode.leaf "var(--brand-accent)")])]
  ∧ (updateTailwindColorVariable [("brand", CNode.node [("accent", CNode.leaf "#fff")])]
      ⟨[]⟩ "brand-accent" "" "accent" none).colors
      ≠ [("brand", CNode.node [("accent", CNode.leaf "#fff")])] := by
  refine ⟨rfl, rfl, ?_⟩
  have h : (updateTailwindColorVariable [("brand", CNode.node [("accent", CNode.leaf "#fff")])]
      ⟨[]⟩ "brand-accent" "" "accent" none).colors
      = [("brand", CNode.node [("accent", CNode.leaf "var(--brand-accent)")])] := rfl
  rw [h]
  simp

/-- Claim C2 (amended): renaming with the new name equal to the original
key name and no recolor returns `{success: true}`, leaves the stylesheet
untouched, and emits no class replacements; the configuration is also
reproduced exactly — unconditionally for a root-group rename, and for a
child rename provided every matched string-literal child already holds
the `var(--...)` reference the source unconditionally rewrites it to
(without that proviso the source still succeeds but rewrites the leaf, as
the counterexample shows). -/
theorem c2_rename_noop (colors : Colors) (css : Css) (orig nm : String) (θ : Option Theme)
    (hpk : (jsSplit orig '-').getD 0 "" ≠ "")
    (hnm : nm = if (jsSplit orig '-').getD 1 "" = "" then (jsSplit orig '-').getD 0 ""
           else (jsSplit orig '-').getD 1 "")
    (hleaf : ∀ p ∈ colors, p.1 = (jsSplit orig '-').getD 0 "" →
      ∀ q ∈ childrenOf p.2, q.1 = (jsSplit orig '-').getD 1 "" →
      (leafValueOf q.2).getD
          ("var(--" ++ (if (jsSplit orig '-').getD 1 "" = "DEFAULT"
            then (jsSplit orig '-').getD 0 "" else orig) ++ ")")
        = "var(--" ++ (if (jsSplit orig '-').getD 1 "" = "DEFAULT"
            then (jsSplit orig '-').getD 0 "" else orig) ++ ")") :
    updateTailwindColorVariable colors css orig "" nm θ = ⟨⟨true, none⟩, colors, css, []⟩ := by
  simp only [updateTailwindColorVariable]
  rw [if_neg hpk]
  by_cases hkn : (jsSplit orig '-').getD 1 "" = ""
  · rw [hkn] at hnm
    rw [if_pos rfl] at hnm
    subst hnm
    have hnames : renameVarNames ((jsSplit orig '-').getD 0 "") "" ((jsSplit orig '-').getD 0 "")
        orig = (orig, orig) := by
      simp [renameVarNames]
    rw [hkn, hnames, updateConfig_root_noop]
    simp [updateCss_noop]
  · rw [if_neg hkn] at hnm
    subst hnm
    by_cases hdef : (jsSplit orig '-').getD 1 "" = "DEFAULT"
    · rw [hdef] at hleaf ⊢
      have hnames : renameVarNames ((jsSplit orig '-').getD 0 "") "DEFAULT" "DEFAULT" orig
          = ((jsSplit orig '-').getD 0 "", (jsSplit orig '-').getD 0 "") := by
        simp [renameVarNames]
      have hcfg := updateConfig_child_noop colors ((jsSplit orig '-').getD 0 "") "DEFAULT"
        ((jsSplit orig '-').getD 0 "") (by decide)
        (by simpa using hleaf)
      rw [hnames]
      rw [updateCss_noop]
      rcases hu : updateTailwindConfigFile colors ((jsSplit orig '-').getD 0 "") "DEFAULT"
          "DEFAULT" ((jsSplit orig '-').getD 0 "") with ⟨ku, vu, out⟩
      rw [hu] at hcfg
      obtain ⟨hku, hout⟩ := hcfg
      subst hku hout
      simp
    · have hnames : renameVarNames ((jsSplit orig '-').getD 0 "") ((jsSplit orig '-').getD 1 "")
          ((jsSplit orig '-').getD 1 "") orig = (orig, orig) := by
        unfold renameVarNames
        rw [if_neg hkn, if_neg hdef,
          if_neg (by simp : ¬((jsSplit orig '-').getD 1 "" ≠ (jsSplit orig '-').getD 1 ""))]
      have hcfg := updateConfig_child_noop colors ((jsSplit orig '-').getD 0 "")
        ((jsSplit orig '-').getD 1 "") orig hkn
        (by simpa [hdef] using hleaf)
      rw [hnames]
      rw [updateCss_noop]
      rcases hu : updateTailwindConfigFile colors ((jsSplit orig '-').getD 0 "")
          ((jsSplit orig '-').getD 1 "") ((jsSplit orig '-').getD 1 "") orig with ⟨ku, vu, out⟩
      rw [hu] at hcfg
      obtain ⟨hku, hout⟩ := hcfg
      subst hku hout
      simp

/-- Witness for `c2_rename_noop` at concrete inputs: renaming
`brand-accent` to `accent` with no recolor over a well-formed pair of
files reproduces both files exactly. -/
theorem c2_rename_noop_witness :
    updateTailwindColorVariable
        [("brand", CNode.node [("accent", CNode.leaf "var(--brand-accent)")])]
        ⟨[⟨":root", [⟨"--brand-accent", "#fff"⟩]⟩]⟩ "brand-accent" "" "accent" none
      = ⟨⟨true, none⟩,
          [("brand", CNode.node [("accent", CNode.leaf "var(--brand-accent)")])],
          ⟨[⟨":root", [⟨"--brand-accent", "#fff"⟩]⟩]⟩, []⟩ :=
  c2_rename_noop
    [("brand", CNode.node [("accent", CNode.leaf "var(--brand-accent)")])]
    ⟨[⟨":root", [⟨"--brand-accent", "#fff"⟩]⟩]⟩ "brand-accent" "accent" none
    (by decide) (by decide) (by decide)

/-- Replacing the first occurrence of a pattern when no occurrence starts
before the given position substitutes exactly there. -/
theorem replaceFirstL_at (pat rep : List Char) (pre suf : List Char)
    (h2 : ∀ i, i < pre.length → ¬ pat <+: (pre ++ (pat ++ suf)).drop i) :
    replaceFirstL pat rep (pre ++ (pat ++ suf)) = pre ++ (rep ++ suf) := by
  induction pre with
  | nil =>
    simp only [List.nil_append]
    cases hps : pat ++ suf with
    | nil =>
      obtain ⟨hp, hs⟩ := List.append_eq_nil.mp hps
      subst hp hs
      simp [replaceFirstL]
    | cons ch cs =>
      rw [← hps]
      cases hpat : pat with
      | nil =>
        subst hpat
        cases suf with
        | nil => simp [replaceFirstL]
        | cons d ds =>
          show replaceFirstL [] rep (d :: ds) = rep ++ d :: ds
          unfold replaceFirstL
          rw [if_pos (by simp [List.isPrefixOf])]
          rfl
      | cons pc pcs =>
        rw [← hpat]
        have hs : pat ++ suf = pc :: (pcs ++ suf) := by rw [hpat]; rfl
        rw [hs]
        show replaceFirstL pat rep (pc :: (pcs ++ suf)) = rep ++ suf
        unfold replaceFirstL
        rw [← hs, if_pos (List.isPrefixOf_iff_prefix.mpr ⟨suf, rfl⟩), List.drop_left]
  | cons a pre ih =>
    have h0 := h2 0 (Nat.succ_pos _)
    rw [List.drop_zero] at h0
    have hnp : ¬ pat.isPrefixOf (a :: (pre ++ (pat ++ suf))) := by
      rw [List.isPrefixOf_iff_prefix]
      simpa using h0
    show replaceFirstL pat rep (a :: (pre ++ (pat ++ suf))) = a :: (pre ++ (rep ++ suf))
    unfold replaceFirstL
    rw [if_neg (by simpa using hnp)]
    rw [ih (fun i hi => by
      have := h2 (i + 1) (by simp only [List.length_cons]; omega)
      simpa using this)]

/-- Claim C5 counterexample: with replacement `{red, blue}` the token
`red-red` matches (it ends with `-red`) but JS `replace` substitutes the
FIRST occurrence, producing `blue-red`, not the `red-blue` the claim's
trailing-segment rule prescribes. -/
theorem c5_counterexample :
    rewriteToken [⟨"red", "blue"⟩] "red-red" = "blue-red"
  ∧ rewriteToken [⟨"red", "blue"⟩] "red-red" ≠ "red-blue" :=
  ⟨by decide, by decide⟩

/-- Claim C5 (amended): a token is rewritten iff it equals the old class
or ends with `-<old class>`; the rewrite replaces the FIRST occurrence of
the old class inside the token, which preserves the prefix before the
final hyphen segment exactly when no earlier occurrence exists. -/
theorem c5_token_rewrite (old new tok : String) :
    (rewriteToken [⟨old, new⟩] tok
      = if tokenMatches ⟨old, new⟩ tok then jsReplaceFirst tok old new else tok)
  ∧ (∀ pre : List Char, tok.data = pre ++ '-' :: old.data →
      (∀ i, i < pre.length + 1 → ¬ old.data <+: tok.data.drop i) →
      rewriteToken [⟨old, new⟩] tok = ⟨pre ++ '-' :: new.data⟩) := by
  constructor
  · unfold rewriteToken
    cases h : tokenMatches ⟨old, new⟩ tok <;> simp [List.find?, h]
  · intro pre h1 h2
    have hmatch : tokenMatches ⟨old, new⟩ tok = true := by
      unfold tokenMatches jsEndsWith
      rw [Bool.or_eq_true]
      refine Or.inr ?_
      rw [List.isSuffixOf_iff_suffix]
      exact ⟨pre, by rw [h1]; simp [String.data_append]⟩
    have hrew : rewriteToken [⟨old, new⟩] tok = jsReplaceFirst tok old new := by
      unfold rewriteToken
      simp [List.find?, hmatch]
    rw [hrew]
    unfold jsReplaceFirst
    have hdata : tok.data = (pre ++ ['-']) ++ (old.data ++ []) := by simpa using h1
    rw [hdata, replaceFirstL_at]
    · simp
    · intro i hi
      rw [← hdata]
      refine h2 i ?_
      simpa using hi

/-- Witness for `c5_token_rewrite` at concrete inputs: `bg-red` becomes
`bg-blue`. -/
theorem c5_token_rewrite_witness :
    rewriteToken [⟨"red", "blue"⟩] "bg-red" = "bg-blue" := by
  have h := (c5_token_rewrite "red" "blue" "bg-red").2 ['b', 'g'] (by decide) (by decide)
  exact h.trans (by decide)

/-- A character list containing no separator splits to itself. -/
theorem splitOnCharL_no_sep (sep : Char) (l : List Char) (h : ∀ c ∈ l, c ≠ sep) :
    splitOnCharL sep l = [l] := by
  induction l with
  | nil => rfl
  | cons c cs ih =>
    have hc : c ≠ sep := h c (List.mem_cons_self c cs)
    rw [splitOnCharL, if_neg hc, ih (fun d hd => h d (List.mem_cons_of_mem c hd))]

/-- Splitting at the first separator of `a ++ sep :: b` peels off `a`. -/
theorem splitOnCharL_append (sep : Char) (a b : List Char) (h : ∀ c ∈ a, c ≠ sep) :
    splitOnCharL sep (a ++ sep :: b) = a :: splitOnCharL sep b := by
  induction a with
  | nil => simp [splitOnCharL]
  | cons c cs ih =>
    have hc : c ≠ sep := h c (List.mem_cons_self c cs)
    rw [List.cons_append, splitOnCharL, if_neg hc,
      ih (fun d hd => h d (List.mem_cons_of_mem c hd))]

/-- Splitting the join of newline-free lines recovers the lines. -/
theorem splitLines_joinLines (ls : List String) (hne : ls ≠ [])
    (hnl : ∀ l ∈ ls, '\n' ∉ l.data) :
    splitLines (joinLines ls) = ls := by
  induction ls with
  | nil => exact absurd rfl hne
  | cons l rest ih =>
    cases rest with
    | nil =>
      show splitLines (joinLines [l]) = [l]
      unfold splitLines joinLines
      rw [splitOnCharL_no_sep '\n' l.data
        (fun c hc hcn => hnl l (List.mem_cons_self l []) (hcn ▸ hc))]
      rfl
    | cons l2 rest2 =>
      have hjoin : joinLines (l :: l2 :: rest2) = l ++ "\n" ++ joinLines (l2 :: rest2) := rfl
      have hdata : (joinLines (l :: l2 :: rest2)).data
          = l.data ++ '\n' :: (joinLines (l2 :: rest2)).data := by
        rw [hjoin, String.data_append, String.data_append, List.append_assoc]
        rfl
      unfold splitLines
      rw [hdata, splitOnCharL_append '\n' l.data _
        (fun c hc hcn => hnl l (List.mem_cons_self _ _) (hcn ▸ hc))]
      have ihr := ih (by simp) (fun q hq => hnl q (List.mem_cons_of_mem l hq))
      unfold splitLines at ihr
      simpa using ihr

/-- Deleting the only member of a group removes the member and the group
itself from the configuration tree, provided the group key occurs first
at that property. -/
theorem deleteConfig_single_member (pre post : Colors) (g c : String) (v : CNode)
    (hpre : ∀ p ∈ pre, p.1 ≠ g) :
    deleteColorGroupConfig (pre ++ (g, CNode.node [(c, v)]) :: post) g (some c) = pre ++ post := by
  induction pre with
  | nil =>
    simp only [List.nil_append]
    rw [deleteColorGroupConfig, if_pos rfl]
    simp [eraseFirstKey]
  | cons p ps ih =>
    cases p with
    | mk k v' =>
      have hp : k ≠ g := by
        have := hpre (k, v') (List.mem_cons_self _ _)
        simpa using this
      have ihr := ih (fun q hq => hpre q (List.mem_cons_of_mem _ hq))
      simp only [List.cons_append, deleteColorGroupConfig, List.append_eq, if_neg hp, ihr]

/-- Claim C8: deleting color `c` from group `g` when `c` is its only
member removes both the `c` key and the then-empty group from the
configuration tree, and keeps exactly the stylesheet lines whose trimmed
text does not begin with `--g-c`; deleting the whole group keeps exactly
the lines whose trimmed text does not begin with `--g` (a prefix
match). -/
theorem c8_delete (pre post : Colors) (g c v : String) (lines : List String)
    (hpre : ∀ p ∈ pre, p.1 ≠ toCamelCase g)
    (hne : lines ≠ [])
    (hnl : ∀ l ∈ lines, '\n' ∉ l.data) :
    (deleteColorGroup (pre ++ (toCamelCase g, CNode.node [(c, CNode.leaf v)]) :: post)
        (joinLines lines) g (some c)).result.success = true
  ∧ (deleteColorGroup (pre ++ (toCamelCase g, CNode.node [(c, CNode.leaf v)]) :: post)
        (joinLines lines) g (some c)).colors = pre ++ post
  ∧ (deleteColorGroup (pre ++ (toCamelCase g, CNode.node [(c, CNode.leaf v)]) :: post)
        (joinLines lines) g (some c)).cssContent
      = joinLines (lines.filter (fun l =>
          !(jsStartsWith (jsTrim l) ("--" ++ toCamelCase g ++ "-" ++ c))))
  ∧ (deleteColorGroup (pre ++ (toCamelCase g, CNode.node [(c, CNode.leaf v)]) :: post)
        (joinLines lines) g none).cssContent
      = joinLines (lines.filter (fun l =>
          !(jsStartsWith (jsTrim l) ("--" ++ toCamelCase g)))) := by
  refine ⟨rfl, ?_, ?_, ?_⟩
  · show deleteColorGroupConfig _ (toCamelCase g) (some c) = pre ++ post
    exact deleteConfig_single_member pre post (toCamelCase g) c (CNode.leaf v) hpre
  · show joinLines ((splitLines (joinLines lines)).filter
        (deleteCssKeep (toCamelCase g) (some c))) = _
    rw [splitLines_joinLines lines hne hnl]
    rfl
  · show joinLines ((splitLines (joinLines lines)).filter
        (deleteCssKeep (toCamelCase g) none)) = _
    rw [splitLines_joinLines lines hne hnl]
    rfl

/-- Witness for `c8_delete` at concrete inputs. -/
theorem c8_delete_witness :
    (deleteColorGroup [("brand", CNode.node [("accent", CNode.leaf "var(--brand-accent)")])]
        (joinLines ["  --brand-accent: #fff;", "  color: red;"]) "brand" (some "accent")).colors
      = []
  ∧ (deleteColorGroup [("brand", CNode.node [("accent", CNode.leaf "var(--brand-accent)")])]
        (joinLines ["  --brand-accent: #fff;", "  color: red;"]) "brand"
        (some "accent")).cssContent
      = joinLines (["  --brand-accent: #fff;", "  color: red;"].filter (fun l =>
          !(jsStartsWith (jsTrim l) ("--" ++ toCamelCase "brand" ++ "-" ++ "accent")))) := by
  have h := c8_delete [] [] "brand" "accent" "var(--brand-accent)"
    ["  --brand-accent: #fff;", "  color: red;"] (by decide) (by decide) (by decide)
  exact ⟨h.2.1, h.2.2.1⟩

/-- With no fuel the replacement leaves the string unchanged. -/
theorem replaceAllAux_zero (pat rep : List Char) (s : List Char) :
    replaceAllAux pat rep 0 s = s := by
  cases s <;> rfl

/-- The empty string is left unchanged whatever the fuel. -/
theorem replaceAllAux_nil (pat rep : List Char) (fuel : Nat) :
    replaceAllAux pat rep fuel [] = [] := by
  cases fuel <;> rfl

/-- A character different from the pattern's head is copied through. -/
theorem replaceAllAux_skip (pat rep : List Char) (p' : List Char) (c : Char) (s : List Char)
    (hpat : pat = '-' :: p') (hc : c ≠ '-') :
    ∀ fuel, ∃ f', replaceAllAux pat rep fuel (c :: s) = c :: replaceAllAux pat rep f' s := by
  intro fuel
  cases fuel with
  | zero => exact ⟨0, by rw [replaceAllAux_zero, replaceAllAux_zero]⟩
  | succ f =>
    refine ⟨f, ?_⟩
    rw [replaceAllAux, if_neg]
    rintro ⟨-, hpre⟩
    rw [hpat] at hpre
    obtain ⟨t, ht⟩ := List.isPrefixOf_iff_prefix.mp hpre
    refine hc ?_
    injection ht with h1 _
    exact h1.symm

/-- A string starting with two dashes still starts with two dashes after
replacement by a two-dash-headed replacement. -/
theorem replaceAllAux_dashes (pat rep : List Char) (p' r' : List Char)
    (hpat : pat = '-' :: '-' :: p') (hrep : rep = '-' :: '-' :: r') :
    ∀ fuel x, ∃ y, replaceAllAux pat rep fuel ('-' :: '-' :: x) = '-' :: '-' :: y := by
  intro fuel x
  cases fuel with
  | zero => exact ⟨x, replaceAllAux_zero pat rep _⟩
  | succ f =>
    rw [replaceAllAux]
    split
    · refine ⟨r' ++ replaceAllAux pat rep f (('-' :: '-' :: x).drop pat.length), ?_⟩
      rw [hrep]
      rfl
    · cases f with
      | zero => exact ⟨x, by rw [replaceAllAux_zero]⟩
      | succ f2 =>
        rw [replaceAllAux]
        split
        · refine ⟨'-' :: r' ++ replaceAllAux pat rep f2 (('-' :: x).drop pat.length), ?_⟩
          rw [hrep]
          rfl
        · cases x with
          | nil => exact ⟨[], by rw [replaceAllAux_nil]⟩
          | cons d ds => exact ⟨replaceAllAux pat rep f2 (d :: ds), rfl⟩

/-- A string ending in `)` still ends in `)` after replacing a pattern
that contains no `)`. -/
theorem replaceAllAux_last (pat rep : List Char) (hpat : pat ≠ [])
    (hnp : ')' ∉ pat) :
    ∀ fuel s, s ≠ [] → s.getLast? = some ')' →
      replaceAllAux pat rep fuel s ≠ []
        ∧ (replaceAllAux pat rep fuel s).getLast? = some ')' := by
  intro fuel
  induction fuel with
  | zero =>
    intro s hs hl
    rw [replaceAllAux_zero]
    exact ⟨hs, hl⟩
  | succ f ih =>
    intro s hs hl
    cases s with
    | nil => exact absurd rfl hs
    | cons c cs =>
      rw [replaceAllAux]
      split
      · rename_i hcond
        obtain ⟨-, hpre⟩ := hcond
        obtain ⟨t, ht⟩ := List.isPrefixOf_iff_prefix.mp hpre
        have htne : t ≠ [] := by
          rintro rfl
          rw [List.append_nil] at ht
          exact hnp (List.mem_of_mem_getLast? (ht ▸ hl))
        have hdrop : (c :: cs).drop pat.length = t := by
          rw [← ht, List.drop_left]
        have htl : t.getLast? = some ')' := by
          rw [← ht, List.getLast?_append_of_ne_nil _ htne] at hl
          exact hl
        obtain ⟨h1, h2⟩ := ih t htne htl
        rw [hdrop]
        refine ⟨by simp [h1], ?_⟩
        rw [List.getLast?_append_of_ne_nil _ h1]
        exact h2
      · cases cs with
        | nil =>
          have hc : c = ')' := by
            have : (([c] : List Char)).getLast? = some c := rfl
            rw [this] at hl
            exact (Option.some.injEq _ _ ▸ hl : c = ')')
          subst hc
          exact ⟨by simp [replaceAllAux], by simp [replaceAllAux]⟩
        | cons d ds =>
          have hdl : (d :: ds).getLast? = some ')' := by
            rwa [List.getLast?_cons_cons] at hl
          obtain ⟨h1, h2⟩ := ih (d :: ds) (by simp) hdl
          refine ⟨by simp, ?_⟩
          rw [show (c :: replaceAllAux pat rep f (d :: ds))
              = [c] ++ replaceAllAux pat rep f (d :: ds) from rfl,
            List.getLast?_append_of_ne_nil _ h1]
          exact h2

/-- A reference built from any name satisfies `isVarRefB`. -/
theorem isVarRefB_var (n : String) : isVarRefB ("var(--" ++ n ++ ")") = true := by
  have hd : ("var(--" ++ n ++ ")").data
      = 'v' :: 'a' :: 'r' :: '(' :: '-' :: '-' :: (n.data ++ [')']) := by
    rw [String.data_append, String.data_append]
    rfl
  simp only [isVarRefB, jsStartsWith, jsEndsWith, hd, Bool.and_eq_true, decide_eq_true_eq]
  refine ⟨⟨?_, ?_⟩, ?_⟩
  · exact List.isPrefixOf_iff_prefix.mpr ⟨n.data ++ [')'], rfl⟩
  · rw [List.isSuffixOf_iff_suffix]
    exact ⟨'v' :: 'a' :: 'r' :: '(' :: '-' :: '-' :: n.data, by simp⟩
  · simp

/-- Core preservation step of the root-group rename: globally replacing
`--old` by `--new` inside a `var(--...)` reference (with `)`-free old
name) yields a `var(--...)` reference again. -/
theorem jsReplaceAll_preserves_varRef (v o n2 : String)
    (ho : ')' ∉ o.data) (hv : isVarRefB v = true) :
    isVarRefB (jsReplaceAll v ("--" ++ o) ("--" ++ n2)) = true := by
  simp only [isVarRefB, jsStartsWith, jsEndsWith, Bool.and_eq_true, decide_eq_true_eq] at hv
  obtain ⟨⟨hs, he⟩, hlen⟩ := hv
  obtain ⟨rest, hr⟩ := List.isPrefixOf_iff_prefix.mp hs
  have hvdata : v.data = 'v' :: 'a' :: 'r' :: '(' :: '-' :: '-' :: rest := by
    rw [← hr]
    rfl
  have hpat : ("--" ++ o).data = '-' :: '-' :: o.data := by
    rw [String.data_append]
    rfl
  have hrep : ("--" ++ n2).data = '-' :: '-' :: n2.data := by
    rw [String.data_append]
    rfl
  have hpatne : ("--" ++ o).data ≠ [] := by rw [hpat]; simp
  have hnp : ')' ∉ ("--" ++ o).data := by
    rw [hpat]
    simpa using ho
  have hvne : v.data ≠ [] := by rw [hvdata]; simp
  have hvlast : v.data.getLast? = some ')' := by
    obtain ⟨q, hq⟩ := List.isSuffixOf_iff_suffix.mp he
    rw [← hq]
    exact List.getLast?_concat q
  obtain ⟨hRne, hRlast⟩ :=
    replaceAllAux_last ("--" ++ o).data ("--" ++ n2).data hpatne hnp v.data.length v.data
      hvne hvlast
  obtain ⟨f1, e1⟩ := replaceAllAux_skip ("--" ++ o).data ("--" ++ n2).data ('-' :: o.data)
    'v' ('a' :: 'r' :: '(' :: '-' :: '-' :: rest) hpat (by decide) v.data.length
  obtain ⟨f2, e2⟩ := replaceAllAux_skip ("--" ++ o).data ("--" ++ n2).data ('-' :: o.data)
    'a' ('r' :: '(' :: '-' :: '-' :: rest) hpat (by decide) f1
  obtain ⟨f3, e3⟩ := replaceAllAux_skip ("--" ++ o).data ("--" ++ n2).data ('-' :: o.data)
    'r' ('(' :: '-' :: '-' :: rest) hpat (by decide) f2
  obtain ⟨f4, e4⟩ := replaceAllAux_skip ("--" ++ o).data ("--" ++ n2).data ('-' :: o.data)
    '(' ('-' :: '-' :: rest) hpat (by decide) f3
  obtain ⟨y, ey⟩ := replaceAllAux_dashes ("--" ++ o).data ("--" ++ n2).data o.data n2.data
    hpat hrep f4 rest
  have hR : replaceAllAux ("--" ++ o).data ("--" ++ n2).data v.data.length v.data
      = 'v' :: 'a' :: 'r' :: '(' :: '-' :: '-' :: y := by
    rw [hvdata] at e1 ⊢
    rw [e1, e2, e3, e4, ey]
  have hyne : y ≠ [] := by
    rintro rfl
    rw [hR] at hRlast
    simp at hRlast
  show isVarRefB ⟨replaceAllAux ("--" ++ o).data ("--" ++ n2).data v.data.length v.data⟩ = true
  simp only [isVarRefB, jsStartsWith, jsEndsWith, hR, Bool.and_eq_true, decide_eq_true_eq]
  refine ⟨⟨?_, ?_⟩, ?_⟩
  · exact List.isPrefixOf_iff_prefix.mpr ⟨y, rfl⟩
  · rw [List.isSuffixOf_iff_suffix]
    rw [hR] at hRlast
    obtain ⟨q, hq⟩ := List.getLast?_eq_some_iff.mp hRlast
    exact ⟨q, hq.symm⟩
  · have : 1 ≤ y.length := List.length_pos.mpr hyne
    simp
    omega

/-- The leaf invariant of a cons splits into head and tail. -/
theorem leavesOKList_cons (q : String × CNode) (rest : List (String × CNode)) :
    leavesOKList (q :: rest) = (leavesOKList [q] && leavesOKList rest) := by
  cases q with
  | mk k v => cases v <;> simp [leavesOKList]

/-- The leaf invariant distributes over append. -/
theorem leavesOKList_append (xs ys : List (String × CNode)) :
    leavesOKList (xs ++ ys) = (leavesOKList xs && leavesOKList ys) := by
  induction xs with
  | nil => simp [leavesOKList]
  | cons q rest ih =>
    rw [List.cons_append, leavesOKList_cons, ih, leavesOKList_cons q rest, Bool.and_assoc]

/-- The key cleanliness of a cons splits into head and tail. -/
theorem keysCleanList_cons (q : String × CNode) (rest : List (String × CNode)) :
    keysCleanList (q :: rest) = (keysCleanList [q] && keysCleanList rest) := by
  cases q with
  | mk k v => cases v <;> simp [keysCleanList, Bool.and_assoc]

/-- Mapping a per-property transformation that preserves the leaf
invariant (given key cleanliness) preserves it on the whole list. -/
theorem leavesOKList_map (f : String × CNode → String × CNode)
    (ch : List (String × CNode))
    (hf : ∀ q ∈ ch, leavesOKList [q] = true → keysCleanList [q] = true →
      leavesOKList [f q] = true)
    (h : leavesOKList ch = true) (hk : keysCleanList ch = true) :
    leavesOKList (ch.map f) = true := by
  induction ch with
  | nil => simp [leavesOKList]
  | cons q rest ih =>
    rw [leavesOKList_cons, Bool.and_eq_true] at h
    rw [keysCleanList_cons, Bool.and_eq_true] at hk
    obtain ⟨h1, h2⟩ := h
    obtain ⟨hk1, hk2⟩ := hk
    rw [List.map_cons, leavesOKList_cons]
    rw [hf q (List.mem_cons_self q rest) h1 hk1,
      ih (fun q hq => hf q (List.mem_cons_of_mem _ hq)) h2 hk2]
    rfl

/-- The child rewrite of a root-group rename preserves the leaf
invariant. -/
theorem rewriteNestedVar_leavesOK (pk nn : String) (q : String × CNode)
    (hpk : ')' ∉ pk.data)
    (hq : keysCleanList [q] = true)
    (h : leavesOKList [q] = true) :
    leavesOKList [rewriteNestedVar pk nn q] = true := by
  cases q with
  | mk k w =>
    cases w with
    | node ps => simpa [rewriteNestedVar] using h
    | leaf s =>
      have hk : ')' ∉ k.data := by
        simp only [keysCleanList, Bool.and_eq_true, List.all_eq_true,
          decide_eq_true_eq] at hq
        exact fun hmem => hq.1 ')' hmem rfl
      have hov : ')' ∉ (if k = "DEFAULT" then pk else pk ++ "-" ++ k).data := by
        split
        · exact hpk
        · rw [String.data_append, String.data_append]
          intro hmem
          rcases List.mem_append.mp hmem with h1 | h2
          · rcases List.mem_append.mp h1 with h3 | h4
            · exact hpk h3
            · simp at h4
          · exact hk h2
      have hval : isVarRefB s = true := by simpa [leavesOKList] using h
      simp only [rewriteNestedVar, leavesOKList, Bool.and_eq_true]
      exact ⟨jsReplaceAll_preserves_varRef s _ _ hov hval, trivial⟩

/-- The per-child step of a child rename preserves the leaf invariant. -/
theorem updNestedProp_leavesOK (pk kn nn nv : String) (c : String × CNode)
    (h : leavesOKList [c] = true) :
    leavesOKList [(updNestedProp pk kn nn nv c).1] = true := by
  cases c with
  | mk ck cv =>
    by_cases hk : ck = kn
    · cases cv with
      | leaf s => simp [updNestedProp, hk, leavesOKList, isVarRefB_var]
      | node ps => simpa [updNestedProp, hk, leavesOKList] using h
    · simpa [updNestedProp, hk] using h

/-- The per-property step of the configuration rename preserves the leaf
invariant. -/
theorem updColorsEntry_leavesOK (pk kn nn nv : String) (p : String × CNode)
    (hok : leavesOKList [p] = true) (hkeys : keysCleanList [p] = true) :
    leavesOKList [(updColorsEntry pk kn nn nv p).1] = true := by
  cases p with
  | mk k v =>
    cases v with
    | leaf s => simpa [updColorsEntry] using hok
    | node ch =>
      have hchok : leavesOKList ch = true := by simpa [leavesOKList] using hok
      have hkparts := hkeys
      simp only [keysCleanList, Bool.and_eq_true, List.all_eq_true,
        decide_eq_true_eq] at hkparts
      have hkclean : ')' ∉ k.data := fun hmem => hkparts.1.1 ')' hmem rfl
      have hchkeys : keysCleanList ch = true := hkparts.1.2
      by_cases hk : k = pk
      · by_cases hkn0 : kn = ""
        · by_cases hcond : pk ≠ "" ∧ nn ≠ pk
          · have hmap : leavesOKList (ch.map (rewriteNestedVar pk nn)) = true :=
              leavesOKList_map _ ch
                (fun q _ hq1 hq2 =>
                  rewriteNestedVar_leavesOK pk nn q (hk ▸ hkclean) hq2 hq1)
                hchok hchkeys
            simp [updColorsEntry, hk, hkn0, hcond, leavesOKList, hmap]
          · simpa [updColorsEntry, hk, hkn0, hcond] using hok
        · have hmap : leavesOKList
              (ch.map (fun c => (updNestedProp pk kn nn nv c).1)) = true :=
            leavesOKList_map _ ch
              (fun q _ hq1 _ => updNestedProp_leavesOK pk kn nn nv q hq1)
              hchok hchkeys
          simp only [updColorsEntry, hk, if_pos rfl, if_neg hkn0, leavesOKList,
            List.map_map]
          simpa [Function.comp, leavesOKList] using hmap
      · simpa [updColorsEntry, hk] using hok

/-- The configuration rename preserves the leaf invariant on its
output. -/
theorem updateConfig_leavesOK (colors : Colors) (pk kn nn nv : String)
    (hok : leavesOKList colors = true) (hkeys : keysCleanList colors = true) :
    leavesOKList (updateTailwindConfigFile colors pk kn nn nv).output = true := by
  show leavesOKList ((colors.map (updColorsEntry pk kn nn nv)).map Prod.fst) = true
  rw [List.map_map]
  exact leavesOKList_map _ colors
    (fun q _ hq1 hq2 => updColorsEntry_leavesOK pk kn nn nv q hq1 hq2) hok hkeys

/-- Removing the first property with a given key preserves the leaf
invariant. -/
theorem eraseFirstKey_leavesOK (ch : List (String × CNode)) (c : String)
    (h : leavesOKList ch = true) :
    leavesOKList (eraseFirstKey ch c) = true := by
  induction ch with
  | nil => simp [eraseFirstKey, leavesOKList]
  | cons q rest ih =>
    rw [leavesOKList_cons, Bool.and_eq_true] at h
    obtain ⟨h1, h2⟩ := h
    cases q with
    | mk k v =>
      by_cases hk : k = c
      · simp only [eraseFirstKey, if_pos hk]
        exact h2
      · simp only [eraseFirstKey, if_neg hk]
        rw [leavesOKList_cons, h1, ih h2]
        rfl

/-- The deletion of a color or group preserves the leaf invariant. -/
theorem deleteConfig_leavesOK (colors : Colors) (g : String) (c? : Option String)
    (h : leavesOKList colors = true) :
    leavesOKList (deleteColorGroupConfig colors g c?) = true := by
  induction colors with
  | nil => simp [deleteColorGroupConfig, leavesOKList]
  | cons p rest ih =>
    rw [leavesOKList_cons, Bool.and_eq_true] at h
    obtain ⟨h1, h2⟩ := h
    cases p with
    | mk k v =>
      by_cases hk : k = g
      · cases v with
        | leaf s =>
          simp only [deleteColorGroupConfig, if_pos hk]
          rw [leavesOKList_cons, h1, h2]
          rfl
        | node ch =>
          cases c? with
          | none =>
            simp only [deleteColorGroupConfig, if_pos hk]
            exact h2
          | some c =>
            have hch : leavesOKList ch = true := by simpa [leavesOKList] using h1
            have he := eraseFirstKey_leavesOK ch c hch
            simp only [deleteColorGroupConfig, if_pos hk]
            split
            · split
              · exact h2
              · have hsing : leavesOKList [(k, CNode.node (eraseFirstKey ch c))] = true := by
                  simp [leavesOKList, he]
                rw [leavesOKList_cons, hsing, h2]
                rfl
            · rw [leavesOKList_cons, h1, h2]
              rfl
      · simp only [deleteColorGroupConfig, if_neg hk]
        rw [leavesOKList_cons, h1, ih h2]
        rfl

/-- Inserting a nested color preserves the leaf invariant. -/
theorem addNested_leavesOK (colors : Colors) (parent nm nv : String)
    (h : leavesOKList colors = true) :
    leavesOKList (addTailwindNestedColor colors parent nm nv) = true := by
  induction colors with
  | nil => simp [addTailwindNestedColor, leavesOKList]
  | cons p rest ih =>
    rw [leavesOKList_cons, Bool.and_eq_true] at h
    obtain ⟨h1, h2⟩ := h
    cases p with
    | mk k v =>
      by_cases hk : k = parent
      · cases v with
        | leaf s =>
          simp only [addTailwindNestedColor, if_pos hk]
          rw [leavesOKList_cons, h1, h2]
          rfl
        | node ch =>
          have hch : leavesOKList ch = true := by simpa [leavesOKList] using h1
          have happ : leavesOKList
              (ch ++ [(toCamelCase nm, CNode.leaf ("var(--" ++ nv ++ ")"))]) = true := by
            rw [leavesOKList_append, hch]
            simp [leavesOKList, isVarRefB_var]
          have hsing : leavesOKList
              [(k, CNode.node (ch ++ [(toCamelCase nm, CNode.leaf ("var(--" ++ nv ++ ")"))]))]
              = true := by
            simp [leavesOKList, happ]
          simp only [addTailwindNestedColor, if_pos hk]
          rw [leavesOKList_cons, hsing, h2]
          rfl
      · simp only [addTailwindNestedColor, if_neg hk]
        rw [leavesOKList_cons, h1, ih h2]
        rfl

/-- Claim C9: the invariant "every string-literal leaf of the colors
object is a `var(--name)` reference" is preserved by every successful
mutation — creation, rename/recolor, and deletion — for any colors object
whose keys are parsed identifiers (no `)` character); creation and rename
only ever write `var(--...)` references. -/
theorem c9_leaves_are_var_refs (colors : Colors) (css : Css) (cssStr : String)
    (v n orig nc nn g : String) (p c? : Option String) (θ : Option Theme)
    (hok : leavesOKList colors = true) (hkeys : keysCleanList colors = true) :
    leavesOKList (createTailwindColorVariable colors css v n p).colors = true
  ∧ leavesOKList (updateTailwindColorVariable colors css orig nc nn θ).colors = true
  ∧ leavesOKList (deleteColorGroup colors cssStr g c?).colors = true := by
  refine ⟨?_, ?_, ?_⟩
  · show leavesOKList (if p.getD "" = ""
        then addTailwindRootColor colors (toCamelCase n) (createCssVarName n p)
        else addTailwindNestedColor colors (p.getD "") (toCamelCase n)
          (createCssVarName n p)) = true
    split
    · rw [addTailwindRootColor, leavesOKList_append, hok]
      simp [leavesOKList, isVarRefB_var]
    · exact addNested_leavesOK colors _ _ _ hok
  · by_cases hpk : (jsSplit orig '-').getD 0 "" = ""
    · simp only [updateTailwindColorVariable]
      rw [if_pos hpk]
      exact hok
    · have hout := updateConfig_leavesOK colors ((jsSplit orig '-').getD 0 "")
        ((jsSplit orig '-').getD 1 "") nn
        (renameVarNames ((jsSplit orig '-').getD 0 "") ((jsSplit orig '-').getD 1 "")
          nn orig).1 hok hkeys
      simp only [updateTailwindColorVariable]
      rw [if_neg hpk]
      dsimp only
      split
      · exact hout
      · exact hok
  · exact deleteConfig_leavesOK colors (toCamelCase g) c? hok

/-- Witness for `c9_leaves_are_var_refs` at concrete inputs. -/
theorem c9_leaves_are_var_refs_witness :
    leavesOKList (createTailwindColorVariable
        [("brand", CNode.node [("accent", CNode.leaf "var(--brand-accent)")])]
        ⟨[]⟩ "#abc" "accent2" (some "brand")).colors = true
  ∧ leavesOKList (updateTailwindColorVariable
        [("brand", CNode.node [("accent", CNode.leaf "var(--brand-accent)")])]
        ⟨[]⟩ "brand" "" "primary" none).colors = true
  ∧ leavesOKList (deleteColorGroup
        [("brand", CNode.node [("accent", CNode.leaf "var(--brand-accent)")])]
        "" "brand" (some "accent")).colors = true :=
  c9_leaves_are_var_refs
    [("brand", CNode.node [("accent", CNode.leaf "var(--brand-accent)")])]
    ⟨[]⟩ "" "#abc" "accent2" "brand" "" "primary" "brand" (some "brand") (some "accent") none
    (by
      simp only [leavesOKList, isVarRefB, jsStartsWith, jsEndsWith]
      decide)
    (by simp [keysCleanList])

end OnlookStyles
